import Mathlib

/-!
Shallow embedding of the eharmonica note engine.

The authoritative implementation is the `Harmonica` component of
`src/src/App.tsx` (hole registry `harmonicaData`, adjacency validator
`areHolesAdjacent`, voice manager `playNote` and `stopNote`, input
controller `handleKeyDown` and `handleKeyUp`).  The alternative
component `src/src/components/Harmonica.tsx` ships the same voice
manager but a key-down handler without the adjacency gate; it is
embedded under the `Components` namespace.

JavaScript `Set` and `Map` values are modelled as insertion-ordered
lists (a `Set` as a duplicate-free `List Nat`, a `Map` as an
association list with unique keys); `Set.add`, `Set.delete`,
`Map.set` and `Map.delete` are embedded below with their exact
insertion-order semantics.  Web-Audio calls are modelled as a command
trace accumulated inside the audio context, with audio nodes named by
the order of their creation (node 0 is `audioContext.destination`).

All numeric constants of the source are decimal literals with at most
two fractional digits, and the engine only ever copies them or adds
them; no rounding can occur.  They are therefore embedded exactly in
fixed-point natural units: frequencies in centihertz (so 261.63 Hz is
26163), times in milliseconds (so 0.05 s is 50) and gain levels in
hundredths of full amplitude (so 0.3 is 30).
-/

namespace Eharmonica

/-- Commands issued to the Web-Audio sink, one per API call made by the
engine: oscillator configuration, gain scheduling, node connection and
oscillator start and stop. -/
inductive AudioCmd where
  | setOscType (node : Nat) (shape : String)
  | setFreq (node : Nat) (centiHz : Nat) (timeMs : Nat)
  | setGain (node : Nat) (centiGain : Nat) (timeMs : Nat)
  | rampGain (node : Nat) (centiGain : Nat) (timeMs : Nat)
  | connect (src : Nat) (dst : Nat)
  | startOsc (node : Nat) (timeMs : Nat)
  | stopOscNow (node : Nat)
  | stopOscAt (node : Nat) (timeMs : Nat)
deriving DecidableEq

/-- Node id of `audioContext.destination`. -/
def destinationNode : Nat := 0

/-- Model of an acquired `AudioContext`: a fresh-node counter (node ids
start at 1, node 0 being the destination), the current time, and the
trace of commands issued so far. -/
structure AudioCtx where
  nextNode : Nat
  currentTime : Nat
  cmds : List AudioCmd
deriving DecidableEq

/-- Audio context as freshly constructed on the first user gesture. -/
def freshAudioCtx : AudioCtx :=
  { nextNode := 1, currentTime := 0, cmds := [] }

/-- One row of the hole registry, as in the `HarmonicaHole` interface. -/
structure HarmonicaHole where
  id : Nat
  blowNote : String
  drawNote : String
  blowFreq : Nat
  drawFreq : Nat
  key : Char
deriving DecidableEq

/-- The 10-hole registry `harmonicaData`, transcribed row by row with
the frequencies in centihertz (261.63 Hz becomes 26163). -/
def harmonicaData : List HarmonicaHole :=
  [ { id := 1, blowNote := "C4", drawNote := "D4", blowFreq := 26163, drawFreq := 29366, key := 'q' },
    { id := 2, blowNote := "E4", drawNote := "G4", blowFreq := 32963, drawFreq := 39200, key := 'w' },
    { id := 3, blowNote := "G4", drawNote := "B4", blowFreq := 39200, drawFreq := 49388, key := 'e' },
    { id := 4, blowNote := "C5", drawNote := "D5", blowFreq := 52325, drawFreq := 58733, key := 'r' },
    { id := 5, blowNote := "E5", drawNote := "F5", blowFreq := 65925, drawFreq := 69846, key := 't' },
    { id := 6, blowNote := "G5", drawNote := "A5", blowFreq := 78399, drawFreq := 88000, key := 'y' },
    { id := 7, blowNote := "C6", drawNote := "B5", blowFreq := 104650, drawFreq := 98777, key := 'u' },
    { id := 8, blowNote := "E6", drawNote := "D6", blowFreq := 131851, drawFreq := 117466, key := 'i' },
    { id := 9, blowNote := "G6", drawNote := "F6", blowFreq := 156798, drawFreq := 139691, key := 'o' },
    { id := 10, blowNote := "C7", drawNote := "A6", blowFreq := 209300, drawFreq := 176000, key := 'p' } ]

/-- JavaScript `Set.add`: append the element unless already present. -/
def setAdd (l : List Nat) (x : Nat) : List Nat :=
  if x ∈ l then l else l ++ [x]

/-- JavaScript `Map.get` on an association list. -/
def mapGet (m : List (Nat × Nat)) (k : Nat) : Option Nat :=
  match m with
  | [] => none
  | (k₁, v) :: rest => if k₁ = k then some v else mapGet rest k

/-- JavaScript `Map.set`: update in place if the key exists, else append. -/
def mapSet (m : List (Nat × Nat)) (k v : Nat) : List (Nat × Nat) :=
  match m with
  | [] => [(k, v)]
  | (k₁, v₁) :: rest => if k₁ = k then (k₁, v) :: rest else (k₁, v₁) :: mapSet rest k v

/-- JavaScript `Map.delete`: remove the entry with the given key. -/
def mapDelete (m : List (Nat × Nat)) (k : Nat) : List (Nat × Nat) :=
  match m with
  | [] => []
  | (k₁, v₁) :: rest => if k₁ = k then rest else (k₁, v₁) :: mapDelete rest k

/-- The engine state shared by the input controller and voice manager:
the React state of the component (`activeHoles`, `isDraw`,
`audioContext`, `oscillators`, the latter mapping a hole id to the node
id of its oscillator). -/
structure EngineState where
  activeHoles : List Nat
  isDraw : Bool
  audioContext : Option AudioCtx
  oscillators : List (Nat × Nat)
deriving DecidableEq

/-- Initial state: no active holes, blow direction, no audio context,
no oscillators. -/
def initState : EngineState :=
  { activeHoles := [], isDraw := false, audioContext := none, oscillators := [] }

/-- Loop body of `areHolesAdjacent`: scan consecutive elements of the
sorted list and fail on a gap greater than 1 (truncated natural
subtraction agrees with the JavaScript comparison `a - b > 1` here,
since a negative difference is not greater than 1 either). -/
def noGapScan : List Nat → Bool
  | a :: b :: rest => if b - a > 1 then false else noGapScan (b :: rest)
  | _ => true

/-- Adjacency validator `areHolesAdjacent`: a list of 0 or 1 hole ids
is adjacent; otherwise sort ascending and require every consecutive
pair to differ by at most 1. -/
def areHolesAdjacent (holeIds : List Nat) : Bool :=
  if holeIds.length ≤ 1 then true
  else noGapScan (List.insertionSort (· ≤ ·) holeIds)

/-- Voice manager `playNote hole isDraw`.  Without an audio context the
call returns the state unchanged (the early `return`).  Otherwise it
picks the draw or blow frequency, hard-stops and removes any existing
oscillator for the hole, creates an oscillator and a gain node, sets
the sawtooth shape and the frequency, schedules the 50 ms attack ramp
from 0 to 0.3, connects oscillator to gain to destination, starts the
oscillator, stores it in the map and adds the hole to `activeHoles`. -/
def playNote (s : EngineState) (hole : HarmonicaHole) (isDraw : Bool) : EngineState :=
  match s.audioContext with
  | none => s
  | some ctx₀ =>
    let frequency := if isDraw then hole.drawFreq else hole.blowFreq
    let stopped :=
      match mapGet s.oscillators hole.id with
      | some existingOsc =>
          ({ ctx₀ with cmds := ctx₀.cmds ++ [AudioCmd.stopOscNow existingOsc] },
           mapDelete s.oscillators hole.id)
      | none => (ctx₀, s.oscillators)
    let ctx := stopped.1
    let oscillator := ctx.nextNode
    let gainNode := ctx.nextNode + 1
    let t := ctx.currentTime
    let ctx₁ : AudioCtx :=
      { ctx with
        nextNode := ctx.nextNode + 2,
        cmds := ctx.cmds ++
          [ AudioCmd.setOscType oscillator "sawtooth",
            AudioCmd.setFreq oscillator frequency t,
            AudioCmd.setGain gainNode 0 t,
            AudioCmd.rampGain gainNode 30 (t + 50),
            AudioCmd.connect oscillator gainNode,
            AudioCmd.connect gainNode destinationNode,
            AudioCmd.startOsc oscillator t ] }
    { s with
      audioContext := some ctx₁,
      oscillators := mapSet stopped.2 hole.id oscillator,
      activeHoles := setAdd s.activeHoles hole.id }

/-- Voice manager `stopNote holeId`.  When a voice exists for the hole
and the audio context is present, it creates a fresh gain node, sets
its gain to 0.3 and ramps it to 0 over 100 ms, schedules the
oscillator to stop 100 ms from now and removes the map entry; in every
case the hole is removed from `activeHoles` and `isDraw` is left
untouched. -/
def stopNote (s : EngineState) (holeId : Nat) : EngineState :=
  let faded :=
    match mapGet s.oscillators holeId, s.audioContext with
    | some oscillator, some ctx =>
      let gainNode := ctx.nextNode
      let t := ctx.currentTime
      (some { ctx with
              nextNode := ctx.nextNode + 1,
              cmds := ctx.cmds ++
                [ AudioCmd.setGain gainNode 30 t,
                  AudioCmd.rampGain gainNode 0 (t + 100),
                  AudioCmd.stopOscAt oscillator (t + 100) ] },
       mapDelete s.oscillators holeId)
    | _, _ => (s.audioContext, s.oscillators)
  { s with
    audioContext := faded.1,
    oscillators := faded.2,
    activeHoles := s.activeHoles.erase holeId }

/-- Input controller `handleKeyDown` of `src/src/App.tsx`: ignore
repeats, look the lower-cased key up in the registry, ignore unmapped
keys and already-active holes, gate on adjacency of the prospective
set, and on success record the direction and start the voice. -/
def handleKeyDown (s : EngineState) (key : Char) (shiftKey isRepeat : Bool) : EngineState :=
  if isRepeat then s
  else
    match harmonicaData.find? (fun h => h.key == key.toLower) with
    | none => s
    | some hole =>
      if hole.id ∈ s.activeHoles then s
      else
        let newActiveHoles := s.activeHoles ++ [hole.id]
        if areHolesAdjacent newActiveHoles then
          playNote { s with isDraw := shiftKey } hole shiftKey
        else s

/-- Input controller `handleKeyUp`: look the lower-cased key up and
stop the corresponding hole, unconditionally. -/
def handleKeyUp (s : EngineState) (key : Char) : EngineState :=
  match harmonicaData.find? (fun h => h.key == key.toLower) with
  | none => s
  | some hole => stopNote s hole.id

/-- External events driving the engine: the two key events and the
acquisition of the audio context on the first user gesture. -/
inductive Event where
  | keyDown (key : Char) (shiftKey : Bool) (isRepeat : Bool)
  | keyUp (key : Char)
  | audioInit
deriving DecidableEq

/-- One step of the event-driven engine. -/
def step (s : EngineState) : Event → EngineState
  | Event.keyDown k sh r => handleKeyDown s k sh r
  | Event.keyUp k => handleKeyUp s k
  | Event.audioInit =>
      match s.audioContext with
      | none => { s with audioContext := some freshAudioCtx }
      | some _ => s

/-- Run a sequence of events from a state. -/
def run (s : EngineState) (es : List Event) : EngineState :=
  es.foldl step s

/-- States reachable from the initial state by some event sequence. -/
def reachable (s : EngineState) : Prop :=
  ∃ es : List Event, run initState es = s

/-- Specification-side reading of the adjacency rule: consecutive
elements of a (sorted) list never differ by more than 1. -/
def gapFree (l : List Nat) : Prop :=
  List.Chain' (fun a b => b - a ≤ 1) l

/-- Ascending sort, the meaning of the JavaScript
`sort((a, b) => a - b)` call inside `areHolesAdjacent`. -/
def sortedHoles (l : List Nat) : List Nat :=
  List.insertionSort (· ≤ ·) l

/-- Specification-side notion of a contiguous run: between any two
members every intermediate index is also a member (vacuously true of
the empty set). -/
def contiguousRun (l : List Nat) : Prop :=
  ∀ x ∈ l, ∀ y ∈ l, ∀ k, x ≤ k → k ≤ y → k ∈ l

/-- Number of entries of an association list carrying a given key. -/
def countKey (m : List (Nat × Nat)) (k : Nat) : Nat :=
  (m.filter (fun p => p.1 == k)).length

/-- Command trace issued so far (empty while no audio context exists). -/
def cmdsOf (s : EngineState) : List AudioCmd :=
  match s.audioContext with
  | none => []
  | some ctx => ctx.cmds

/-- Frequency (in centihertz) carried by a command, when it is a
frequency assignment. -/
def freqOfCmd : AudioCmd → Option Nat
  | AudioCmd.setFreq _ f _ => some f
  | _ => none

/-- Frequencies assigned by the commands that a transition from `s` to
its successor state appended to the trace. -/
def emittedFreqs (s s₁ : EngineState) : List Nat :=
  ((cmdsOf s₁).drop (cmdsOf s).length).filterMap freqOfCmd

/-- Whether a command wires the given node into the audio graph. -/
def connectsNode (c : AudioCmd) (n : Nat) : Bool :=
  match c with
  | AudioCmd.connect src dst => src == n || dst == n
  | _ => false

/-- Registry row of hole 1. -/
def hole1 : HarmonicaHole :=
  { id := 1, blowNote := "C4", drawNote := "D4", blowFreq := 26163, drawFreq := 29366, key := 'q' }

/-- Registry row of hole 4. -/
def hole4 : HarmonicaHole :=
  { id := 4, blowNote := "C5", drawNote := "D5", blowFreq := 52325, drawFreq := 58733, key := 'r' }

/-- Registry row of hole 5. -/
def hole5 : HarmonicaHole :=
  { id := 5, blowNote := "E5", drawNote := "F5", blowFreq := 65925, drawFreq := 69846, key := 't' }

/-- Registry row of hole 6. -/
def hole6 : HarmonicaHole :=
  { id := 6, blowNote := "G5", drawNote := "A5", blowFreq := 78399, drawFreq := 88000, key := 'y' }

/-- State right after the audio context is acquired. -/
def stateA : EngineState :=
  { activeHoles := [], isDraw := false, audioContext := some freshAudioCtx, oscillators := [] }

/-- State with holes 3 and 4 sounding: audio acquired, then the keys
of holes 3 and 4 pressed. -/
def stateC2 : EngineState :=
  run initState
    [Event.audioInit, Event.keyDown 'e' false false, Event.keyDown 'r' false false]

/-- State with holes 3, 4 and 5 sounding. -/
def stateC5 : EngineState :=
  run initState
    [Event.audioInit, Event.keyDown 'e' false false, Event.keyDown 'r' false false,
     Event.keyDown 't' false false]

/-- State with a single voice on hole 4 (oscillator node 1, gain node 2). -/
def state4 : EngineState :=
  run initState [Event.audioInit, Event.keyDown 'r' false false]

/-- Event trace refuting the global contiguity invariant: sound holes
3, 4, 5, then release the middle hole 4. -/
def traceC3 : List Event :=
  [Event.audioInit, Event.keyDown 'e' false false, Event.keyDown 'r' false false,
   Event.keyDown 't' false false, Event.keyUp 'r']

/-- Event trace separating the two key-down handlers: press the key of
hole 4, then the key of hole 6 (not adjacent). -/
def traceC10 : List Event :=
  [Event.audioInit, Event.keyDown 'r' false false, Event.keyDown 'y' false false]

namespace Components

/-- Key-down handler of `src/src/components/Harmonica.tsx` (both
copies in that file are identical): same repeat filter, registry
lookup and active-hole check, but no adjacency gate. -/
def handleKeyDown (s : EngineState) (key : Char) (shiftKey isRepeat : Bool) : EngineState :=
  if isRepeat then s
  else
    match harmonicaData.find? (fun h => h.key == key.toLower) with
    | none => s
    | some hole =>
      if hole.id ∈ s.activeHoles then s
      else playNote { s with isDraw := shiftKey } hole shiftKey

/-- Step relation for the components variant; key-up and audio
acquisition are identical to the main variant. -/
def step (s : EngineState) : Event → EngineState
  | Event.keyDown k sh r => Components.handleKeyDown s k sh r
  | Event.keyUp k => handleKeyUp s k
  | Event.audioInit =>
      match s.audioContext with
      | none => { s with audioContext := some freshAudioCtx }
      | some _ => s

/-- Run a sequence of events through the components variant. -/
def run (s : EngineState) (es : List Event) : EngineState :=
  es.foldl Components.step s

end Components


/-! Helper lemmas about the adjacency validator. -/

/-- The scan of consecutive gaps succeeds exactly when consecutive
elements differ by at most 1. -/
theorem noGapScan_iff (l : List Nat) :
    noGapScan l = true ↔ List.Chain' (fun a b => b - a ≤ 1) l := by
  induction l with
  | nil => simp [noGapScan]
  | cons a rest ih =>
    cases rest with
    | nil => simp [noGapScan]
    | cons b t =>
      by_cases h : b - a > 1
      · simp only [noGapScan, if_pos h, List.chain'_cons]
        constructor
        · intro hfalse; exact absurd hfalse (by simp)
        · intro hc; omega
      · simp only [noGapScan, if_neg h, List.chain'_cons] at ih ⊢
        constructor
        · intro hs; exact ⟨by omega, ih.1 hs⟩
        · intro hc; exact ih.2 hc.2

/-- The validator holds exactly when the ascending sort of the input
has no gap above 1 between consecutive elements. -/
theorem areHolesAdjacent_iff (l : List Nat) :
    areHolesAdjacent l = true ↔ gapFree (sortedHoles l) := by
  unfold areHolesAdjacent gapFree sortedHoles
  split
  case isTrue h =>
    simp only [true_iff]
    have hlen : (List.insertionSort (· ≤ ·) l).length ≤ 1 := by
      rw [List.length_insertionSort]; exact h
    rcases hsort : List.insertionSort (· ≤ ·) l with _ | ⟨a, _ | ⟨b, t⟩⟩
    · exact List.chain'_nil
    · exact List.chain'_singleton a
    · rw [hsort] at hlen; simp at hlen
  case isFalse h => exact noGapScan_iff _

/-- In a sorted list whose consecutive gaps are at most 1, any value
between two members is itself a member. -/
theorem sorted_gapFree_between :
    ∀ l : List Nat, List.Sorted (· ≤ ·) l →
      List.Chain' (fun a b => b - a ≤ 1) l →
      ∀ k x, x ∈ l → x ≤ k → ∀ y, y ∈ l → k ≤ y → k ∈ l := by
  intro l
  induction l with
  | nil => intro _ _ k x hx; simp at hx
  | cons a rest ih =>
    intro hs hc k x hx hxk y hy hky
    rw [List.sorted_cons] at hs
    by_cases hka : k = a
    · exact hka ▸ List.mem_cons_self a rest
    · have hak : a < k := by
        rcases List.mem_cons.1 hx with rfl | hxr
        · omega
        · have := hs.1 x hxr; omega
      have hyr : y ∈ rest := by
        rcases List.mem_cons.1 hy with rfl | hmem
        · exact absurd hky (by omega)
        · exact hmem
      cases rest with
      | nil => simp at hyr
      | cons b t =>
        have hab : b - a ≤ 1 := (List.chain'_cons.1 hc).1
        have haleb : a ≤ b := hs.1 b (List.mem_cons_self b t)
        have hbk : b ≤ k := by omega
        have hmem := ih hs.2 (List.chain'_cons.1 hc).2 k b (List.mem_cons_self b t) hbk y hyr hky
        exact List.mem_cons_of_mem a hmem

/-- A list accepted by the validator is a contiguous run. -/
theorem contiguousRun_of_adjacent (l : List Nat) (h : areHolesAdjacent l = true) :
    contiguousRun l := by
  intro x hx y hy k hxk hky
  have hperm := List.perm_insertionSort (· ≤ ·) l
  have hsorted : List.Sorted (· ≤ ·) (List.insertionSort (· ≤ ·) l) :=
    List.sorted_insertionSort _ l
  have hchain : List.Chain' (fun a b => b - a ≤ 1) (List.insertionSort (· ≤ ·) l) :=
    (areHolesAdjacent_iff l).1 h
  have hk := sorted_gapFree_between _ hsorted hchain k x (hperm.mem_iff.2 hx) hxk
    y (hperm.mem_iff.2 hy) hky
  exact hperm.mem_iff.1 hk

/-! Helper lemmas about reachability and the oscillator map. -/

/-- A property preserved by every step holds after any run. -/
theorem run_preserves (P : EngineState → Prop)
    (hstep : ∀ s e, P s → P (step s e)) :
    ∀ es s, P s → P (run s es) := by
  intro es
  induction es with
  | nil => intro s h; exact h
  | cons e t ih => intro s h; exact ih _ (hstep s e h)

/-- The empty map has no entries. -/
theorem countKey_nil (k : Nat) : countKey [] k = 0 := rfl

/-- Unfolding of the entry count on a cons cell. -/
theorem countKey_cons (k₁ v₁ : Nat) (rest : List (Nat × Nat)) (k : Nat) :
    countKey ((k₁, v₁) :: rest) k =
      (if k₁ = k then 1 else 0) + countKey rest k := by
  by_cases h : k₁ = k
  · simp [countKey, List.filter_cons, h]
    omega
  · simp [countKey, List.filter_cons, h]

/-- A key that `mapGet` does not find has no entries. -/
theorem countKey_mapGet_none (m : List (Nat × Nat)) (k : Nat)
    (h : mapGet m k = none) : countKey m k = 0 := by
  induction m with
  | nil => rfl
  | cons p rest ih =>
    obtain ⟨k₁, v₁⟩ := p
    rw [countKey_cons]
    by_cases hk : k₁ = k
    · rw [mapGet, if_pos hk] at h; exact absurd h (by simp)
    · rw [mapGet, if_neg hk] at h
      simp [hk, ih h]

/-- Setting a key leaves it with its old entry count, at least 1. -/
theorem countKey_mapSet_self (m : List (Nat × Nat)) (k v : Nat) :
    countKey (mapSet m k v) k = max (countKey m k) 1 := by
  induction m with
  | nil => simp [mapSet, countKey_cons, countKey_nil]
  | cons p rest ih =>
    obtain ⟨k₁, v₁⟩ := p
    by_cases h : k₁ = k
    · rw [mapSet, if_pos h, countKey_cons, countKey_cons, if_pos h]
      omega
    · rw [mapSet, if_neg h, countKey_cons, countKey_cons, ih]
      simp [h]

/-- Setting a key does not change the count of other keys. -/
theorem countKey_mapSet_ne (m : List (Nat × Nat)) (k v k₂ : Nat) (hne : k₂ ≠ k) :
    countKey (mapSet m k v) k₂ = countKey m k₂ := by
  induction m with
  | nil =>
    simp only [mapSet, countKey_cons, countKey_nil]
    rw [if_neg (Ne.symm hne)]
  | cons p rest ih =>
    obtain ⟨k₁, v₁⟩ := p
    by_cases h : k₁ = k
    · rw [mapSet, if_pos h, countKey_cons, countKey_cons]
    · rw [mapSet, if_neg h, countKey_cons, countKey_cons, ih]

/-- Deleting a key removes one of its entries. -/
theorem countKey_mapDelete_self (m : List (Nat × Nat)) (k : Nat) :
    countKey (mapDelete m k) k = countKey m k - 1 := by
  induction m with
  | nil => rfl
  | cons p rest ih =>
    obtain ⟨k₁, v₁⟩ := p
    by_cases h : k₁ = k
    · rw [mapDelete, if_pos h, countKey_cons, if_pos h]
      omega
    · rw [mapDelete, if_neg h, countKey_cons, countKey_cons, if_neg h, ih]
      omega

/-- Deleting a key never increases any entry count. -/
theorem countKey_mapDelete_le (m : List (Nat × Nat)) (k k₂ : Nat) :
    countKey (mapDelete m k) k₂ ≤ countKey m k₂ := by
  induction m with
  | nil => exact Nat.le_refl 0
  | cons p rest ih =>
    obtain ⟨k₁, v₁⟩ := p
    by_cases h : k₁ = k
    · rw [mapDelete, if_pos h, countKey_cons]
      omega
    · rw [mapDelete, if_neg h, countKey_cons, countKey_cons]
      omega

/-- With an audio context present, `playNote` leaves exactly one
oscillator entry for the played hole. -/
theorem playNote_countKey_self (s : EngineState) (hole : HarmonicaHole) (d : Bool)
    (hctx : s.audioContext ≠ none) (hle : countKey s.oscillators hole.id ≤ 1) :
    countKey (playNote s hole d).oscillators hole.id = 1 := by
  rcases hs : s.audioContext with _ | ctx
  · exact absurd hs hctx
  · rcases hg : mapGet s.oscillators hole.id with _ | v
    · simp only [playNote, hs, hg]
      rw [countKey_mapSet_self, countKey_mapGet_none _ _ hg]
      omega
    · simp only [playNote, hs, hg]
      rw [countKey_mapSet_self, countKey_mapDelete_self]
      omega

/-- `playNote` preserves the at-most-one-entry-per-hole bound. -/
theorem playNote_preserves_count (s : EngineState) (hole : HarmonicaHole) (d : Bool)
    (hle : ∀ k, countKey s.oscillators k ≤ 1) :
    ∀ k, countKey (playNote s hole d).oscillators k ≤ 1 := by
  intro k
  rcases hs : s.audioContext with _ | ctx
  · simp only [playNote, hs]; exact hle k
  · by_cases hk : k = hole.id
    · subst hk
      exact Nat.le_of_eq (playNote_countKey_self s hole d (by simp [hs]) (hle hole.id))
    · rcases hg : mapGet s.oscillators hole.id with _ | v
      · simp only [playNote, hs, hg]
        rw [countKey_mapSet_ne _ _ _ _ hk]
        exact hle k
      · simp only [playNote, hs, hg]
        rw [countKey_mapSet_ne _ _ _ _ hk]
        exact Nat.le_trans (countKey_mapDelete_le _ _ _) (hle k)

/-- `stopNote` preserves the at-most-one-entry-per-hole bound. -/
theorem stopNote_preserves_count (s : EngineState) (hId : Nat)
    (h : ∀ k, countKey s.oscillators k ≤ 1) :
    ∀ k, countKey (stopNote s hId).oscillators k ≤ 1 := by
  intro k
  rcases hg : mapGet s.oscillators hId with _ | v <;>
    rcases hc : s.audioContext with _ | ctx <;>
      simp only [stopNote, hg, hc] <;>
        first
          | exact h k
          | exact Nat.le_trans (countKey_mapDelete_le _ _ _) (h k)

/-- With an audio context present, `playNote` emits a hard stop for the
previously installed oscillator of the hole, if any. -/
theorem playNote_stops_prior (s : EngineState) (hole : HarmonicaHole) (d : Bool)
    (hctx : s.audioContext ≠ none) (v : Nat)
    (hv : mapGet s.oscillators hole.id = some v) :
    AudioCmd.stopOscNow v ∈ cmdsOf (playNote s hole d) := by
  rcases hs : s.audioContext with _ | ctx
  · exact absurd hs hctx
  · simp [playNote, hs, hv, cmdsOf]

/-- `playNote` either leaves `activeHoles` unchanged or inserts the
played hole. -/
theorem playNote_activeHoles (s : EngineState) (hole : HarmonicaHole) (d : Bool) :
    (playNote s hole d).activeHoles = s.activeHoles ∨
    (playNote s hole d).activeHoles = setAdd s.activeHoles hole.id := by
  rcases hc : s.audioContext with _ | ctx
  · exact Or.inl (by simp [playNote, hc])
  · rcases hg : mapGet s.oscillators hole.id with _ | v <;>
      exact Or.inr (by simp [playNote, hc, hg])

/-- Every step preserves the at-most-one-entry-per-hole bound. -/
theorem step_preserves_count (s : EngineState) (e : Event)
    (h : ∀ k, countKey s.oscillators k ≤ 1) :
    ∀ k, countKey (step s e).oscillators k ≤ 1 := by
  cases e with
  | keyDown key sh r =>
    intro k
    simp only [step, handleKeyDown]
    split
    · exact h k
    · split
      · exact h k
      · split
        · exact h k
        · split
          · exact playNote_preserves_count { s with isDraw := sh } _ _ h k
          · exact h k
  | keyUp key =>
    intro k
    simp only [step, handleKeyUp]
    split
    · exact h k
    · exact stopNote_preserves_count _ _ h k
  | audioInit =>
    intro k
    simp only [step]
    split
    · exact h k
    · exact h k

/-- On key-down, `activeHoles` is unchanged unless a mapped, inactive
hole passes the adjacency gate, in which case it is inserted. -/
theorem handleKeyDown_activeHoles (s : EngineState) (key : Char) (sh r : Bool) :
    (handleKeyDown s key sh r).activeHoles = s.activeHoles ∨
    (∃ hole, harmonicaData.find? (fun h => h.key == key.toLower) = some hole ∧
      hole.id ∉ s.activeHoles ∧
      areHolesAdjacent (s.activeHoles ++ [hole.id]) = true ∧
      (handleKeyDown s key sh r).activeHoles = setAdd s.activeHoles hole.id) := by
  unfold handleKeyDown
  split
  · exact Or.inl rfl
  · split
    · exact Or.inl rfl
    · next hole hfind =>
      split
      · exact Or.inl rfl
      · next hmem =>
        by_cases hadj : areHolesAdjacent (s.activeHoles ++ [hole.id]) = true
        · simp only [hadj, if_true]
          rcases playNote_activeHoles { s with isDraw := sh } hole sh with heq | heq
          · exact Or.inl heq
          · exact Or.inr ⟨hole, hfind, hmem, hadj, heq⟩
        · simp only [hadj, if_false]
          exact Or.inl rfl

/-! The claims. -/

/-- C1: `areHolesAdjacent` returns true iff the sorted indices contain
no gap greater than 1 between consecutive elements, and it returns true
for every set of 0 or 1 elements; `[2, 3, 4]` yields true, `[2, 4]`
yields false, `[]` and singletons yield true. -/
theorem claim1_adjacency_validator :
    (∀ l : List Nat, areHolesAdjacent l = true ↔ gapFree (sortedHoles l)) ∧
    areHolesAdjacent [2, 3, 4] = true ∧
    areHolesAdjacent [2, 4] = false ∧
    areHolesAdjacent [] = true ∧
    areHolesAdjacent [7] = true :=
  ⟨areHolesAdjacent_iff, by decide, by decide, by decide, by decide⟩

/-- C2: a key-down for a mapped key whose hole is not active and whose
prospective set fails the adjacency check is rejected silently — the
whole engine state (`activeHoles`, direction, oscillator map, command
trace) is returned unchanged. -/
theorem claim2_reject_preserves_state (s : EngineState) (key : Char) (sh r : Bool)
    (hole : HarmonicaHole)
    (hfind : harmonicaData.find? (fun h => h.key == key.toLower) = some hole)
    (hact : hole.id ∉ s.activeHoles)
    (hadj : areHolesAdjacent (s.activeHoles ++ [hole.id]) = false) :
    handleKeyDown s key sh r = s := by
  unfold handleKeyDown
  split
  · rfl
  · rw [hfind]
    simp [hact, hadj]

/-- C2 witness: admitting hole 6 while holes 3 and 4 are active is
rejected and the state, in particular `activeHoles = [3, 4]`, is kept. -/
theorem claim2_witness :
    handleKeyDown stateC2 'y' false false = stateC2 ∧ stateC2.activeHoles = [3, 4] :=
  ⟨claim2_reject_preserves_state stateC2 'y' false false hole6
     (by decide) (by decide) (by decide),
   by decide⟩

/-- C3 counterexample: the contiguity invariant is not preserved by
every reachable transition — sounding holes 3, 4, 5 and then releasing
the middle hole 4 reaches a state whose `activeHoles` is `[3, 5]`,
which is neither empty nor a contiguous run. -/
theorem claim3_counterexample :
    reachable (run initState traceC3) ∧
    (run initState traceC3).activeHoles = [3, 5] ∧
    ¬ contiguousRun (run initState traceC3).activeHoles := by
  refine ⟨⟨traceC3, rfl⟩, by decide, ?_⟩
  intro hcont
  have h4 := hcont 3 (by decide) 5 (by decide) 4 (by decide) (by decide)
  revert h4
  decide

/-- C3 amended: the adjacency gate makes every key-down preserve the
contiguous-or-empty property of `activeHoles`; key-up does not preserve
it (see the counterexample), so the invariant holds only for admission
steps, not for every reachable state. -/
theorem claim3_amended_keydown_contiguity (s : EngineState) (key : Char) (sh r : Bool)
    (h : contiguousRun s.activeHoles) :
    contiguousRun (handleKeyDown s key sh r).activeHoles := by
  rcases handleKeyDown_activeHoles s key sh r with heq | ⟨hole, _, hmem, hadj, heq⟩
  · rw [heq]; exact h
  · rw [heq, setAdd, if_neg hmem]
    exact contiguousRun_of_adjacent _ hadj

/-- C3 witness: from the contiguous state `[3, 4]`, admitting hole 5
keeps `activeHoles` a contiguous run, namely `[3, 4, 5]`. -/
theorem claim3_witness :
    contiguousRun (handleKeyDown stateC2 't' false false).activeHoles ∧
    (handleKeyDown stateC2 't' false false).activeHoles = [3, 4, 5] := by
  constructor
  · refine claim3_amended_keydown_contiguity stateC2 't' false false ?_
    intro x hx y hy k hxk hky
    have hx2 : x ∈ [3, 4] := hx
    have hy2 : y ∈ [3, 4] := hy
    show k ∈ [3, 4]
    fin_cases hx2 <;> fin_cases hy2 <;> interval_cases k <;> simp
  · decide

/-- C4 counterexample: a `playNote` call without an audio context does
not update the engine state — the hole is not inserted into
`activeHoles`, refuting the visual-only-update claim. -/
theorem claim4_counterexample :
    playNote initState hole4 false = initState ∧
    4 ∉ (playNote initState hole4 false).activeHoles :=
  ⟨rfl, by decide⟩

/-- C4 amended: when the audio context is absent, `playNote` is a
complete no-op: it produces no sound and leaves the entire engine
state, `activeHoles` and direction included, unchanged. -/
theorem claim4_amended_noop_without_audio (s : EngineState) (hole : HarmonicaHole)
    (d : Bool) (h : s.audioContext = none) :
    playNote s hole d = s := by
  simp [playNote, h]

/-- C4 witness: the no-op behaviour at the initial (context-free) state. -/
theorem claim4_witness : playNote initState hole1 true = initState :=
  claim4_amended_noop_without_audio initState hole1 true rfl

/-- C5: a key-up for a mapped key is admitted unconditionally — with no
adjacency hypothesis, the hole is removed from `activeHoles`, all other
holes are untouched and the direction is left unchanged. -/
theorem claim5_keyup_unconditional (s : EngineState) (key : Char) (hole : HarmonicaHole)
    (hfind : harmonicaData.find? (fun h => h.key == key.toLower) = some hole)
    (hnd : s.activeHoles.Nodup) :
    hole.id ∉ (handleKeyUp s key).activeHoles ∧
    (∀ x, x ≠ hole.id → (x ∈ (handleKeyUp s key).activeHoles ↔ x ∈ s.activeHoles)) ∧
    (handleKeyUp s key).isDraw = s.isDraw := by
  unfold handleKeyUp
  rw [hfind]
  refine ⟨?_, ?_, rfl⟩
  · show hole.id ∉ s.activeHoles.erase hole.id
    exact fun hmem => ((List.Nodup.mem_erase_iff hnd).1 hmem).1 rfl
  · intro x hx
    show x ∈ s.activeHoles.erase hole.id ↔ x ∈ s.activeHoles
    exact List.mem_erase_of_ne hx

/-- C5 witness: from active set `[3, 4, 5]`, releasing the middle hole
4 succeeds even though the resulting set `[3, 5]` is non-contiguous. -/
theorem claim5_witness :
    4 ∉ (handleKeyUp stateC5 'r').activeHoles ∧
    (3 ∈ (handleKeyUp stateC5 'r').activeHoles ↔ 3 ∈ stateC5.activeHoles) ∧
    (handleKeyUp stateC5 'r').isDraw = stateC5.isDraw := by
  have h := claim5_keyup_unconditional stateC5 'r' hole4 (by decide) (by decide)
  exact ⟨h.1, h.2.1 3 (by decide), h.2.2⟩

/-- C6 counterexample: after a `playNote` call made without an audio
context there is no oscillator entry for the hole, not exactly one. -/
theorem claim6_counterexample :
    ¬ countKey (playNote initState hole1 false).oscillators 1 = 1 := by decide

/-- C6 amended: when the audio context is present, any `playNote` call
leaves exactly one oscillator entry for the hole, hard-stopping any
prior voice first; without a context the call is a no-op; and in every
reachable state the per-hole entry count never exceeds one. -/
theorem claim6_amended_single_voice :
    (∀ s hole d, s.audioContext ≠ none → (∀ k, countKey s.oscillators k ≤ 1) →
      countKey (playNote s hole d).oscillators hole.id = 1 ∧
      ∀ v, mapGet s.oscillators hole.id = some v →
        AudioCmd.stopOscNow v ∈ cmdsOf (playNote s hole d)) ∧
    (∀ s, reachable s → ∀ k, countKey s.oscillators k ≤ 1) := by
  constructor
  · intro s hole d hctx hle
    exact ⟨playNote_countKey_self s hole d hctx (hle hole.id),
      fun v hv => playNote_stops_prior s hole d hctx v hv⟩
  · intro s hs k
    obtain ⟨es, rfl⟩ := hs
    exact run_preserves (fun s => ∀ k, countKey s.oscillators k ≤ 1)
      step_preserves_count es initState (fun _ => Nat.zero_le 1) k

/-- C6 witness: playing hole 1 right after the context is acquired
installs exactly one entry, and the reachable state with a voice on
hole 4 satisfies the per-hole bound. -/
theorem claim6_witness :
    countKey (playNote stateA hole1 false).oscillators 1 = 1 ∧
    countKey state4.oscillators 4 ≤ 1 := by
  constructor
  · exact (claim6_amended_single_voice.1 stateA hole1 false (by decide)
      (fun k => by simp [stateA, countKey])).1
  · exact claim6_amended_single_voice.2 state4
      ⟨[Event.audioInit, Event.keyDown 'r' false false], rfl⟩ 4

/-- C7: a repeat-flagged key-down never changes the state (so never
starts a voice), and a key-down for a hole that is already active is a
no-op, whatever the repeat flag. -/
theorem claim7_repeat_and_sounding_noop :
    (∀ s : EngineState, ∀ key : Char, ∀ sh : Bool, handleKeyDown s key sh true = s) ∧
    (∀ s : EngineState, ∀ key : Char, ∀ sh r : Bool, ∀ hole : HarmonicaHole,
      harmonicaData.find? (fun h => h.key == key.toLower) = some hole →
      hole.id ∈ s.activeHoles → handleKeyDown s key sh r = s) := by
  constructor
  · intro s key sh
    rfl
  · intro s key sh r hole hfind hmem
    unfold handleKeyDown
    split
    · rfl
    · rw [hfind]
      simp [hmem]

/-- C7 witness: with holes 3, 4, 5 sounding, a repeat-flagged key-down
on the key of hole 5 and a duplicate non-repeat key-down on the same
key are both no-ops. -/
theorem claim7_witness :
    handleKeyDown stateC5 't' false true = stateC5 ∧
    handleKeyDown stateC5 't' false false = stateC5 :=
  ⟨claim7_repeat_and_sounding_noop.1 stateC5 't' false,
   claim7_repeat_and_sounding_noop.2 stateC5 't' false false hole5 (by decide) (by decide)⟩

/-- C8: for every admitted key-down the single frequency assignment
emitted is the draw frequency of the hole when the modifier is held and
the blow frequency otherwise (frequencies in centihertz). -/
theorem claim8_pitch_deterministic (s : EngineState) (key : Char) (sh : Bool)
    (hole : HarmonicaHole) (ctx : AudioCtx)
    (hctx : s.audioContext = some ctx)
    (hfind : harmonicaData.find? (fun h => h.key == key.toLower) = some hole)
    (hact : hole.id ∉ s.activeHoles)
    (hadj : areHolesAdjacent (s.activeHoles ++ [hole.id]) = true) :
    emittedFreqs s (handleKeyDown s key sh false) =
      [if sh then hole.drawFreq else hole.blowFreq] := by
  unfold handleKeyDown
  rw [hfind]
  simp only [Bool.false_eq_true, if_false, hact, if_neg, hadj, if_true]
  rcases hg : mapGet s.oscillators hole.id with _ | v <;>
    simp [playNote, hctx, hg, emittedFreqs, cmdsOf, freqOfCmd, List.drop_left,
      List.filterMap_cons]

/-- C8 witness: pressing the key of hole 1 just after context
acquisition emits 261.63 Hz (26163 centihertz) without the modifier and
293.66 Hz (29366 centihertz) with it. -/
theorem claim8_witness :
    emittedFreqs stateA (handleKeyDown stateA 'q' false false) = [26163] ∧
    emittedFreqs stateA (handleKeyDown stateA 'q' true false) = [29366] := by
  constructor
  · exact (claim8_pitch_deterministic stateA 'q' false hole1 freshAudioCtx rfl
      (by decide) (by decide) (by decide)).trans (by decide)
  · exact (claim8_pitch_deterministic stateA 'q' true hole1 freshAudioCtx rfl
      (by decide) (by decide) (by decide)).trans (by decide)

/-- C9: on `stopNote` of the sounding hole 4 the code emits its release
ramp (0.3 down to 0 over 100 ms) on gain node 3, a node it has just
created, while the voice's signal path is oscillator 1 → gain 2 →
destination; node 3 occurs in no connect command of the whole trace, so
the ramp is not applied to the sounding voice's signal path and the
oscillator is simply hard-stopped 100 ms later. -/
theorem claim9_release_ramp_disconnected :
    (cmdsOf (stopNote state4 4)).drop (cmdsOf state4).length =
      [AudioCmd.setGain 3 30 0, AudioCmd.rampGain 3 0 100, AudioCmd.stopOscAt 1 100] ∧
    AudioCmd.connect 1 2 ∈ cmdsOf (stopNote state4 4) ∧
    AudioCmd.connect 2 destinationNode ∈ cmdsOf (stopNote state4 4) ∧
    (cmdsOf (stopNote state4 4)).all (fun c => !(connectsNode c 3)) = true :=
  ⟨by decide, by decide, by decide, by decide⟩

/-- C10: the two exported key-down handlers are not behaviourally
equivalent — pressing the keys of holes 4 and 6 leaves `activeHoles`
at `[4]` under the gated handler of `App.tsx` but at `[4, 6]` under the
ungated handler of `components/Harmonica.tsx`. -/
theorem claim10_handlers_differ :
    (run initState traceC10).activeHoles = [4] ∧
    (Components.run initState traceC10).activeHoles = [4, 6] ∧
    run initState traceC10 ≠ Components.run initState traceC10 :=
  ⟨by decide, by decide, by decide⟩

end Eharmonica
